import Mathlib

/-!
Verification of the jishaku Python-feature core (`jishaku/features/python.py`):
the result-dispatch pipeline (`jsk_python_result_handling`), the argument
binder (`jsk_python_get_convertables`) and the scope accessor (`scope`).

Text is modelled as `List Char` (Python `str`, where `len` counts code
points, exactly as `List.length` does here).  Byte strings are `List Nat`
with each element < 256.
-/

namespace Jishaku

/-! ## Python text primitives -/

/-- The set of characters Python's `str.strip()` removes: code points with
the Unicode whitespace property (ASCII whitespace, the C1 separators,
NEL, NBSP and the Unicode space/line/paragraph separators). -/
def pyIsSpace (c : Char) : Bool :=
  let n := c.toNat
  (9 ≤ n && n ≤ 13) || (28 ≤ n && n ≤ 32) || n == 133 || n == 160 ||
    n == 0x1680 || (0x2000 ≤ n && n ≤ 0x200a) || n == 0x2028 || n == 0x2029 ||
    n == 0x202f || n == 0x205f || n == 0x3000

/-- Python `s.strip()`: remove leading and trailing whitespace. -/
def pyStrip (s : List Char) : List Char :=
  ((s.dropWhile pyIsSpace).reverse.dropWhile pyIsSpace).reverse

/-- `startsWith pat s` is true when `pat` is a prefix of `s`
(Python `s.startswith(pat)`). -/
def startsWith : List Char → List Char → Bool
  | [], _ => true
  | _ :: _, [] => false
  | a :: as, b :: bs => a == b && startsWith as bs

/-- `occursIn pat s` is true when `pat` occurs as a contiguous substring
of `s` (Python `pat in s`). -/
def occursIn (pat : List Char) : List Char → Bool
  | [] => pat.isEmpty
  | c :: rest => startsWith pat (c :: rest) || occursIn pat rest

/-- Worker for `pyReplace`: scans left to right; at each position where the
(nonempty) pattern matches, emits the replacement and skips past the match,
otherwise keeps the character.  The fuel argument (instantiated with the
length of the scanned list) only makes the recursion structural: one unit
of fuel is spent per character consumed, and a match consumes at least one
character, so `s.length` fuel is always enough. -/
def pyReplaceAux (pat rep : List Char) : Nat → List Char → List Char
  | _, [] => []
  | 0, s => s
  | fuel + 1, c :: rest =>
    if startsWith pat (c :: rest) then
      rep ++ pyReplaceAux pat rep fuel (List.drop (pat.length - 1) rest)
    else
      c :: pyReplaceAux pat rep fuel rest

/-- Python `s.replace(pat, rep)`: replace every left-to-right
non-overlapping occurrence of `pat` in `s` by `rep`.  For the empty
pattern Python inserts `rep` before every character and at the end. -/
def pyReplace (s pat rep : List Char) : List Char :=
  if pat.isEmpty then rep ++ s.flatMap (fun c => c :: rep)
  else pyReplaceAux pat rep s.length s

/-! ## UTF-8 (Python `str.encode('utf-8')` and decoding) -/

/-- Standard UTF-8 encoding of one Unicode scalar value (1 to 4 bytes). -/
def utf8EncodeScalar (n : Nat) : List Nat :=
  if n < 0x80 then [n]
  else if n < 0x800 then [0xC0 + n / 64, 0x80 + n % 64]
  else if n < 0x10000 then
    [0xE0 + n / 4096, 0x80 + (n / 64) % 64, 0x80 + n % 64]
  else
    [0xF0 + n / 262144, 0x80 + (n / 4096) % 64, 0x80 + (n / 64) % 64,
      0x80 + n % 64]

/-- UTF-8 encoding of a text (Python `s.encode('utf-8')`). -/
def utf8Encode (s : List Char) : List Nat :=
  s.flatMap (fun c => utf8EncodeScalar c.toNat)

/-- One step of strict UTF-8 decoding: the leading scalar value and the
remaining bytes, or `none` on malformed input.  Rejects stray or missing
continuation bytes, overlong encodings, surrogates and values above
`0x10FFFF` (as Python `bytes.decode('utf-8')` does). -/
def utf8DecodeStep : List Nat → Option (Nat × List Nat)
  | [] => none
  | b0 :: rest =>
    if b0 < 0x80 then some (b0, rest)
    else if b0 < 0xC2 then none
    else if b0 < 0xE0 then
      match rest with
      | b1 :: rest1 =>
        if 0x80 ≤ b1 && b1 < 0xC0 then
          some ((b0 - 0xC0) * 64 + (b1 - 0x80), rest1)
        else none
      | [] => none
    else if b0 < 0xF0 then
      match rest with
      | b1 :: b2 :: rest2 =>
        if 0x80 ≤ b1 && b1 < 0xC0 && 0x80 ≤ b2 && b2 < 0xC0 then
          let v := (b0 - 0xE0) * 4096 + (b1 - 0x80) * 64 + (b2 - 0x80)
          if 0x800 ≤ v && !(0xD800 ≤ v && v < 0xE000) then
            some (v, rest2)
          else none
        else none
      | _ => none
    else if b0 < 0xF5 then
      match rest with
      | b1 :: b2 :: b3 :: rest3 =>
        if 0x80 ≤ b1 && b1 < 0xC0 && 0x80 ≤ b2 && b2 < 0xC0 &&
            0x80 ≤ b3 && b3 < 0xC0 then
          let v := (b0 - 0xF0) * 262144 + (b1 - 0x80) * 4096 +
            (b2 - 0x80) * 64 + (b3 - 0x80)
          if 0x10000 ≤ v && v < 0x110000 then
            some (v, rest3)
          else none
        else none
      | _ => none
    else none

/-- Strict UTF-8 decoding of a whole byte string to scalar values, by
iterating `utf8DecodeStep`.  The fuel argument (instantiated with the
byte count) only makes the recursion structural: every step consumes at
least one byte, so the byte count always suffices. -/
def utf8DecodeScalarsAux : Nat → List Nat → Option (List Nat)
  | _, [] => some []
  | 0, _ :: _ => none
  | fuel + 1, b0 :: rest =>
    match utf8DecodeStep (b0 :: rest) with
    | none => none
    | some (v, rest1) => (utf8DecodeScalarsAux fuel rest1).map (v :: ·)

/-- Strict UTF-8 decoding to Unicode scalar values. -/
def utf8DecodeScalars (bs : List Nat) : Option (List Nat) :=
  utf8DecodeScalarsAux bs.length bs

/-- UTF-8 decoding to text (Python `bs.decode('utf-8')`). -/
def utf8Decode (bs : List Nat) : Option (List Char) :=
  (utf8DecodeScalars bs).map (fun l => l.map Char.ofNat)

/-! ## Paginator model

`WrappedPaginator` and `PaginatorInterface` come from `jishaku.paginators`,
which is not part of this excerpt; only their construction is visible in
`jsk_python_result_handling`. -/

/-- `wrapChunksAux budget fuel s` splits `s` greedily into chunks of at
most `budget` characters.  Fuel (instantiated with `s.length`) makes the
recursion structural; when fuel runs out the remaining text becomes one
chunk, which never happens for positive `budget` and fuel `≥ s.length`. -/
def wrapChunksAux (budget : Nat) : Nat → List Char → List (List Char)
  | _, [] => []
  | 0, s => [s]
  | fuel + 1, c :: rest =>
    (c :: rest).take budget :: wrapChunksAux budget fuel ((c :: rest).drop budget)

/-- Greedy split of a text into chunks of at most `budget` characters. -/
def wrapChunks (budget : Nat) (s : List Char) : List (List Char) :=
  wrapChunksAux budget s.length s

/-- Modelled from the spec: `WrappedPaginator` (from `jishaku.paginators`,
not part of this excerpt) is "constructible with a page-size budget and
fence prefix/suffix; exposes `add_line(text)`"; it splits added text so
that every rendered page — fence prefix, newline, chunk, newline, fence
suffix — fits in `maxSize`. -/
structure WrappedPaginator where
  prefixText : List Char
  suffixText : List Char
  maxSize : Nat
  text : List Char
deriving DecidableEq

/-- Modelled from the spec: `add_line` accumulates text into the paginator. -/
def WrappedPaginator.addLine (p : WrappedPaginator) (line : List Char) :
    WrappedPaginator :=
  { p with text := p.text ++ line }

/-- Modelled from the spec: the rendered pages, each chunk wrapped in the
configured fences, with the chunk budget leaving room for both fences and
the two joining newlines. -/
def WrappedPaginator.pages (p : WrappedPaginator) : List (List Char) :=
  (wrapChunks (p.maxSize - (p.prefixText.length + p.suffixText.length + 2))
      p.text).map
    (fun c => p.prefixText ++ '\n' :: c ++ '\n' :: p.suffixText)

/-- Modelled from the spec: `PaginatorInterface(bot, paginator, owner=...)`
binds a paginator to the bot and to an owning caller, and exposes
`send_to(ctx)`. -/
structure PaginatorInterface where
  bot : Nat
  paginator : WrappedPaginator
  owner : Nat
deriving DecidableEq

/-! ## Chat-client data model (discord primitives, interface boundary) -/

/-- A chat-native message object (`discord.Message`); only its jump URL is
consumed by the dispatcher. -/
structure DMessage where
  jumpUrl : List Char
deriving DecidableEq

/-- A file object (`discord.File`): a filename and binary content. -/
structure DFile where
  filename : List Char
  content : List Nat
deriving DecidableEq

/-- A rich-embed object (`discord.Embed`), consumed opaquely. -/
structure DEmbed where
  payload : Nat
deriving DecidableEq

/-- `discord.AllowedMentions`: which mention-notification types a message
may trigger.  `AllowedMentions.none()` disables all four. -/
structure AllowedMentions where
  everyone : Bool
  users : Bool
  roles : Bool
  repliedUser : Bool
deriving DecidableEq

/-- `discord.AllowedMentions.none()`: all mention types disabled. -/
def AllowedMentions.noneAllowed : AllowedMentions :=
  ⟨false, false, false, false⟩

/-- The arguments of one `ctx.send(...)` call: optional content, file,
embed, and allowed-mentions setting (absent keyword = `none`). -/
structure SendCall where
  content : Option (List Char)
  file : Option DFile
  embed : Option DEmbed
  allowedMentions : Option AllowedMentions
deriving DecidableEq

/-- The one delivery action the dispatcher performs for a value: either a
`ctx.send(...)` call or an `interface.send_to(ctx)` on a paginator
interface. -/
inductive DispatchAction where
  | send : SendCall → DispatchAction
  | sendTo : PaginatorInterface → DispatchAction
deriving DecidableEq

/-- What `jsk_python_result_handling` returns (the value retained as `_`):
the awaited result of its single delivery action. -/
inductive Retained where
  | sendResult : SendCall → Retained
  | sendToResult : PaginatorInterface → Retained
deriving DecidableEq

/-- The retained value of a dispatch: the result of its delivery action. -/
def retainedOf : DispatchAction → Retained
  | .send call => .sendResult call
  | .sendTo iface => .sendToResult iface

/-! ## Runtime values and invocation context -/

/-- An arbitrary Python runtime value as the dispatcher's `isinstance`
chain sees it.  Each `as*` field is `some` exactly when the value is an
instance of the corresponding class (the fields may overlap, as Python
class membership can); `asStr` carries the text when the value is a `str`,
and `reprOf` is the value's `repr`. -/
structure RuntimeVal where
  asMessage : Option DMessage
  asFile : Option DFile
  asEmbed : Option DEmbed
  asPaginator : Option PaginatorInterface
  asStr : Option (List Char)
  reprOf : List Char
deriving DecidableEq

/-- A mentioned entity (user, channel or role): an identity and its
literal mention text (`.mention`). -/
structure Entity where
  ident : Nat
  mention : List Char
deriving DecidableEq

/-- A value bound in the REPL variable dictionary. -/
inductive Val where
  | user : Entity → Val
  | channel : Entity → Val
  | role : Entity → Val
  | extVar : Nat → Val
  | retained : Retained → Val
  | noneVal : Val
deriving DecidableEq

/-- The invocation context (`ctx`), including the pieces of its
collaborators the two functions read: the bot's credential
(`self.bot.http.token`, `None` or a string, falsy when `None` or empty),
the externally-defined `use_file_check(ctx, size)` predicate, the author
and bot identities, the optional interaction, the raw message's mention
lists, and the variable dictionary produced by the external
`get_var_dict_from_ctx`. -/
structure Ctx where
  token : Option (List Char)
  useFileCheck : Nat → Bool
  author : Nat
  bot : Nat
  interaction : Option Nat
  mentions : List Entity
  channelMentions : List Entity
  roleMentions : List Entity
  varDict : List (List Char × Val)

/-- Modelled from the spec: a `Scope` (from `jishaku.repl`, not part of
this excerpt) is "an ordered mapping from identifier to value"; `Scope()`
constructs a structurally empty one. -/
structure Scope where
  bindings : List (List Char × Val)
deriving DecidableEq

/-- Modelled from the spec: `Scope()` — a freshly constructed, empty scope. -/
def Scope.new : Scope := ⟨[]⟩

/-- The feature's state: its internal stored scope, the retention flag
(read from `Flags.RETAIN` at initialization), and the last result. -/
structure PythonFeature where
  internalScope : Scope
  retain : Bool
  lastResult : Val

/-- The `scope` property: the internal stored scope when retention is on,
otherwise a new `Scope()` on every access. -/
def PythonFeature.scope (f : PythonFeature) : Scope :=
  if f.retain then f.internalScope else Scope.new

/-! ## The result dispatcher (`jsk_python_result_handling`) -/

/-- The fixed redaction marker. -/
def redactionMarker : List Char := "[token omitted]".data

/-- The zero-width-space placeholder substituted for empty messages. -/
def zwsp : List Char := ['\u200B']

/-- The credential-redaction step: `if self.bot.http.token: result =
result.replace(self.bot.http.token, "[token omitted]")` (the guard is
Python truthiness: skipped when the token is `None` or empty). -/
def redactToken (token : Option (List Char)) (s : List Char) : List Char :=
  match token with
  | none => s
  | some tk => if tk.isEmpty then s else pyReplace s tk redactionMarker

/-- The text-handling tail of `jsk_python_result_handling`, reached after
the four `isinstance` branches, on the (possibly `repr`-normalized) text. -/
def handleText (ctx : Ctx) (text : List Char) : DispatchAction :=
  if text.length ≤ 2000 then
    let text1 := if pyStrip text = [] then zwsp else text
    let text2 := redactToken ctx.token text1
    .send { content := some text2, file := none, embed := none,
            allowedMentions := some AllowedMentions.noneAllowed }
  else if ctx.useFileCheck text.length then
    .send { content := none,
            file := some ⟨"output.py".data, utf8Encode text⟩,
            embed := none, allowedMentions := none }
  else
    let paginator : WrappedPaginator :=
      { prefixText := "```py".data, suffixText := "```".data,
        maxSize := 1980, text := [] }
    let paginator := paginator.addLine text
    .sendTo { bot := ctx.bot, paginator := paginator, owner := ctx.author }

/-- `jsk_python_result_handling(ctx, result)`: the `isinstance` chain over
the produced value, falling through to text handling after
`repr`-normalizing non-strings. -/
def jsk_python_result_handling (ctx : Ctx) (result : RuntimeVal) :
    DispatchAction :=
  match result.asMessage with
  | some m => .send { content := some ("<Message <".data ++ m.jumpUrl ++ ">>".data),
                      file := none, embed := none, allowedMentions := none }
  | none =>
  match result.asFile with
  | some f => .send { content := none, file := some f, embed := none,
                      allowedMentions := none }
  | none =>
  match result.asEmbed with
  | some e => .send { content := none, file := none, embed := some e,
                      allowedMentions := none }
  | none =>
  match result.asPaginator with
  | some p => .sendTo p
  | none =>
  match result.asStr with
  | some s => handleText ctx s
  | none => handleText ctx result.reprOf

/-- The text a non-chat-native value carries into text handling: the value
itself when it is a `str`, otherwise its `repr`. -/
def RuntimeVal.textOf (v : RuntimeVal) : List Char :=
  v.asStr.getD v.reprOf

/-- The content argument of a dispatch, when it is a `send` with content. -/
def sentContent : DispatchAction → Option (List Char)
  | .send call => call.content
  | .sendTo _ => none

/-- The seven outcome kinds of the dispatcher: one per `isinstance`
branch, plus the three text rules. -/
inductive Outcome where
  | chatNative : Outcome
  | fileSend : Outcome
  | embedSend : Outcome
  | paginatorSend : Outcome
  | shortText : Outcome
  | inlineFile : Outcome
  | paginatedText : Outcome
deriving DecidableEq

/-- Which of the seven outcome branches fires for a value: the same
branch structure as `jsk_python_result_handling`, reduced to its
classification decision. -/
def outcomeOf (ctx : Ctx) (v : RuntimeVal) : Outcome :=
  match v.asMessage with
  | some _ => .chatNative
  | none =>
  match v.asFile with
  | some _ => .fileSend
  | none =>
  match v.asEmbed with
  | some _ => .embedSend
  | none =>
  match v.asPaginator with
  | some _ => .paginatorSend
  | none =>
    if v.textOf.length ≤ 2000 then .shortText
    else if ctx.useFileCheck v.textOf.length then .inlineFile
    else .paginatedText

/-- The three text-handling outcomes. -/
def Outcome.isText : Outcome → Bool
  | .shortText => true
  | .inlineFile => true
  | .paginatedText => true
  | _ => false

/-! ## The argument binder (`jsk_python_get_convertables`) -/

/-- Little-endian decimal digits of `n`.  Fuel (instantiated with `n`)
makes the recursion structural; `n` units always suffice since the
argument at least halves every step. -/
def natDigitsAux : Nat → Nat → List Nat
  | _, 0 => []
  | 0, _ + 1 => []
  | fuel + 1, n + 1 => ((n + 1) % 10) :: natDigitsAux fuel ((n + 1) / 10)

/-- The digit character for a decimal digit. -/
def digitChar (d : Nat) : Char := Char.ofNat (48 + d)

/-- The decimal rendering of a natural number (Python `f"{n}"`). -/
def natRepr (n : Nat) : List Char :=
  if n = 0 then ['0'] else ((natDigitsAux n n).map digitChar).reverse

/-- Python `dict` assignment `d[k] = v`: overwrite in place when the key
is present, otherwise append at the end (insertion order preserved). -/
def dictInsert {α : Type} : List (List Char × α) → List Char → α →
    List (List Char × α)
  | [], k, v => [(k, v)]
  | p :: rest, k, v =>
    if p.1 == k then (k, v) :: rest else p :: dictInsert rest k v

/-- Python `d[k]` / `d.get(k)`: the value at a key, if present. -/
def dictGet {α : Type} : List (List Char × α) → List Char → Option α
  | [], _ => none
  | p :: rest, k => if p.1 == k then some p.2 else dictGet rest k

/-- The decimal digit encoded by a digit character (inverse of
`digitChar` on digits; used only to prove `natRepr` injective). -/
def charToDigit (c : Char) : Nat := c.toNat - 48

/-- The value of a little-endian decimal digit list (inverse of
`natDigitsAux`; used only to prove `natRepr` injective). -/
def ofDecimal : List Nat → Nat
  | [] => 0
  | d :: ds => d + 10 * ofDecimal ds

/-- The number rendered by a decimal string (left inverse of `natRepr`). -/
def natVal (l : List Char) : Nat :=
  ofDecimal (l.reverse.map charToDigit)

/-- The synthetic identifier `__user_mention_{i}` (braces in the source
are an f-string splice of the decimal index). -/
def userMentionIdent (i : Nat) : List Char := "__user_mention_".data ++ natRepr i

/-- The synthetic identifier `__channel_mention_{i}`. -/
def channelMentionIdent (i : Nat) : List Char :=
  "__channel_mention_".data ++ natRepr i

/-- The synthetic identifier `__role_mention_{i}`. -/
def roleMentionIdent (i : Nat) : List Char := "__role_mention_".data ++ natRepr i

/-- One `for index, entity in enumerate(...)` loop of
`jsk_python_get_convertables`: starting at index `i`, bind each entity's
synthetic identifier in the arg dict and map its mention text to that
identifier in the convertables dict. -/
def mentionLoop (mk : Nat → List Char) (wrap : Entity → Val) :
    Nat → List Entity →
    List (List Char × Val) × List (List Char × List Char) →
    List (List Char × Val) × List (List Char × List Char)
  | _, [], s => s
  | i, e :: rest, (d, cv) =>
    mentionLoop mk wrap (i + 1) rest
      (dictInsert d (mk i) (wrap e), dictInsert cv e.mention (mk i))

/-- `jsk_python_get_convertables(ctx)`: seed the arg dict from the
external `get_var_dict_from_ctx` plus the `_` binding, then — only when
the invocation carries a raw message rather than an interaction — bind
every mentioned user, channel and role. -/
def jsk_python_get_convertables (f : PythonFeature) (ctx : Ctx) :
    List (List Char × Val) × List (List Char × List Char) :=
  let argDict := dictInsert ctx.varDict "_".data f.lastResult
  let convertables : List (List Char × List Char) := []
  if ctx.interaction = none then
    let s := mentionLoop userMentionIdent Val.user 0 ctx.mentions
      (argDict, convertables)
    let s := mentionLoop channelMentionIdent Val.channel 0 ctx.channelMentions s
    mentionLoop roleMentionIdent Val.role 0 ctx.roleMentions s
  else
    (argDict, convertables)

/-! ## Lemmas: UTF-8 round trip -/

/-- Decoding one step of the canonical encoding of a valid scalar value
recovers the value and the remaining bytes. -/
theorem utf8DecodeStep_encodeScalar (n : Nat) (h : Nat.isValidChar n)
    (bs : List Nat) :
    utf8DecodeStep (utf8EncodeScalar n ++ bs) = some (n, bs) := by
  unfold utf8EncodeScalar
  by_cases h1 : n < 0x80
  · rw [if_pos h1]
    simp only [List.cons_append, List.nil_append]
    unfold utf8DecodeStep
    simp only
    rw [if_pos h1]
  · by_cases h2 : n < 0x800
    · rw [if_neg h1, if_pos h2]
      simp only [List.cons_append, List.nil_append]
      unfold utf8DecodeStep
      simp only
      rw [if_neg (by omega), if_neg (by omega), if_pos (by omega)]
      rw [if_pos (by simp; omega)]
      have hn : (0xC0 + n / 64 - 0xC0) * 64 + (0x80 + n % 64 - 0x80) = n := by
        omega
      rw [hn]
    · by_cases h3 : n < 0x10000
      · rw [if_neg h1, if_neg h2, if_pos h3]
        simp only [List.cons_append, List.nil_append]
        unfold utf8DecodeStep
        simp only
        rw [if_neg (by omega), if_neg (by omega), if_neg (by omega),
          if_pos (by omega)]
        rw [if_pos (by simp; omega)]
        have hv : (0xE0 + n / 4096 - 0xE0) * 4096 +
            (0x80 + (n / 64) % 64 - 0x80) * 64 + (0x80 + n % 64 - 0x80) = n := by
          omega
        simp only [hv]
        rw [if_pos ?side]
        case side =>
          simp only [Bool.and_eq_true, Bool.not_eq_true', decide_eq_true_eq]
          rcases h with h | h
          · refine ⟨by omega, ?_⟩
            simp only [Bool.and_eq_false_iff, decide_eq_false_iff_not]
            left
            omega
          · refine ⟨by omega, ?_⟩
            simp only [Bool.and_eq_false_iff, decide_eq_false_iff_not]
            right
            omega
      · have h4 : n < 0x110000 := by
          rcases h with h | h
          · omega
          · omega
        rw [if_neg h1, if_neg h2, if_neg h3]
        simp only [List.cons_append, List.nil_append]
        unfold utf8DecodeStep
        simp only
        rw [if_neg (by omega), if_neg (by omega), if_neg (by omega),
          if_neg (by omega), if_pos (by omega)]
        rw [if_pos (by simp; omega)]
        have hv : (0xF0 + n / 262144 - 0xF0) * 262144 +
            (0x80 + (n / 4096) % 64 - 0x80) * 4096 +
            (0x80 + (n / 64) % 64 - 0x80) * 64 + (0x80 + n % 64 - 0x80) = n := by
          omega
        simp only [hv]
        rw [if_pos (by simp; omega)]

/-- The encoding of a scalar value is never empty. -/
theorem utf8EncodeScalar_ne_nil (n : Nat) : utf8EncodeScalar n ≠ [] := by
  unfold utf8EncodeScalar
  split
  · simp
  · split
    · simp
    · split
      · simp
      · simp

/-- Decoding the canonical encoding of a text recovers its scalar values,
for any sufficient fuel. -/
theorem utf8DecodeScalarsAux_encode (s : List Char) :
    ∀ fuel, (utf8Encode s).length ≤ fuel →
      utf8DecodeScalarsAux fuel (utf8Encode s) = some (s.map Char.toNat) := by
  induction s with
  | nil =>
    intro fuel _
    cases fuel <;> rfl
  | cons c s ih =>
    intro fuel hfuel
    have henc : utf8Encode (c :: s) = utf8EncodeScalar c.toNat ++ utf8Encode s := by
      simp [utf8Encode]
    obtain ⟨b0, ebs, heq⟩ : ∃ b0 ebs, utf8EncodeScalar c.toNat = b0 :: ebs := by
      cases hcase : utf8EncodeScalar c.toNat with
      | nil => exact absurd hcase (utf8EncodeScalar_ne_nil _)
      | cons x xs => exact ⟨x, xs, rfl⟩
    have hvalid : Nat.isValidChar c.toNat := c.valid
    have hstep : utf8DecodeStep (b0 :: (ebs ++ utf8Encode s)) =
        some (c.toNat, utf8Encode s) := by
      rw [← List.cons_append, ← heq]
      exact utf8DecodeStep_encodeScalar c.toNat hvalid (utf8Encode s)
    have hlen : (utf8Encode (c :: s)).length =
        (utf8EncodeScalar c.toNat).length + (utf8Encode s).length := by
      rw [henc, List.length_append]
    have hpos : 1 ≤ (utf8EncodeScalar c.toNat).length := by
      rw [heq]
      simp
    cases fuel with
    | zero => omega
    | succ k =>
      rw [henc, heq, List.cons_append]
      rw [utf8DecodeScalarsAux]
      rw [hstep]
      simp only
      rw [ih k (by omega)]
      simp

/-- UTF-8 round trip: decoding the encoding of any text reproduces the
text exactly. -/
theorem utf8Decode_utf8Encode (s : List Char) :
    utf8Decode (utf8Encode s) = some s := by
  rw [utf8Decode, utf8DecodeScalars]
  rw [utf8DecodeScalarsAux_encode s _ le_rfl]
  simp [List.map_map, Function.comp_def, Char.ofNat_toNat]

/-! ## Lemmas: Python text primitives -/

/-- A nonempty prefix of a one-character text is that text. -/
theorem startsWith_singleton (pat : List Char) (c : Char)
    (h : startsWith pat [c] = true) : pat = [] ∨ pat = [c] := by
  match pat with
  | [] => exact Or.inl rfl
  | [a] =>
    right
    simp only [startsWith, Bool.and_eq_true, beq_iff_eq] at h
    rw [h.1]
  | a :: b :: rest =>
    simp [startsWith] at h

/-- Replacement never empties a nonempty text when the replacement text
is nonempty. -/
theorem pyReplaceAux_ne_nil (pat rep : List Char) (hrep : rep ≠ [])
    (fuel : Nat) (c : Char) (rest : List Char) :
    pyReplaceAux pat rep fuel (c :: rest) ≠ [] := by
  cases fuel with
  | zero => simp [pyReplaceAux]
  | succ k =>
    rw [pyReplaceAux]
    split
    · intro hcon
      rcases List.append_eq_nil.mp hcon with ⟨h1, _⟩
      exact hrep h1
    · intro hcon
      simp at hcon

/-- The redaction step never empties a nonempty text. -/
theorem redactToken_ne_nil (token : Option (List Char)) (s : List Char)
    (hs : s ≠ []) : redactToken token s ≠ [] := by
  match token with
  | none => simpa [redactToken] using hs
  | some tk =>
    rw [redactToken]
    split
    · exact hs
    · rename_i htk
      rw [pyReplace, if_neg (by simp [htk])]
      match s, hs with
      | c :: rest, _ =>
        simp only [List.length_cons]
        exact pyReplaceAux_ne_nil tk redactionMarker (by decide)
          (rest.length + 1) c rest

/-- Replacing a pattern that is neither empty nor the whole text leaves a
one-character text unchanged. -/
theorem pyReplace_singleton (tk rep : List Char) (c : Char)
    (h1 : tk ≠ []) (h2 : tk ≠ [c]) : pyReplace [c] tk rep = [c] := by
  have hne : tk.isEmpty = false := by
    cases tk with
    | nil => exact absurd rfl h1
    | cons a as => rfl
  rw [pyReplace, hne]
  simp only [Bool.false_eq_true, if_false, List.length_cons, List.length_nil]
  rw [pyReplaceAux]
  rw [if_neg ?hsw]
  case hsw =>
    intro hsw
    rcases startsWith_singleton tk c hsw with h | h
    · exact h1 h
    · exact h2 h
  rfl

/-- Replacing a one-character pattern in a text made of that character
yields one copy of the replacement per character. -/
theorem pyReplaceAux_replicate_length (rep : List Char) (c : Char) :
    ∀ k, (pyReplaceAux [c] rep k (List.replicate k c)).length =
      k * rep.length := by
  intro k
  induction k with
  | zero => simp [List.replicate, pyReplaceAux]
  | succ n ih =>
    rw [List.replicate_succ]
    rw [pyReplaceAux]
    rw [if_pos (by simp [startsWith])]
    simp only [List.length_cons, List.length_nil, Nat.sub_self,
      List.drop_zero, List.length_append]
    rw [ih]
    ring

/-! ## Lemmas: the greedy chunk split -/

/-- Concatenating the chunks reproduces the split text. -/
theorem wrapChunksAux_flatten (b : Nat) :
    ∀ fuel s, (wrapChunksAux b fuel s).flatten = s := by
  intro fuel
  induction fuel with
  | zero =>
    intro s
    cases s <;> simp [wrapChunksAux]
  | succ k ih =>
    intro s
    cases s with
    | nil => simp [wrapChunksAux]
    | cons c rest =>
      rw [wrapChunksAux]
      simp only [List.flatten_cons, ih]
      exact List.take_append_drop b (c :: rest)

/-- With positive budget and sufficient fuel, every chunk respects the
budget. -/
theorem wrapChunksAux_length_le (b : Nat) (hb : 1 ≤ b) :
    ∀ fuel s, s.length ≤ fuel →
      ∀ ch ∈ wrapChunksAux b fuel s, ch.length ≤ b := by
  intro fuel
  induction fuel with
  | zero =>
    intro s hs ch hch
    match s, hs with
    | [], _ => simp [wrapChunksAux] at hch
  | succ k ih =>
    intro s hs ch hch
    cases s with
    | nil => simp [wrapChunksAux] at hch
    | cons c rest =>
      rw [wrapChunksAux] at hch
      rcases List.mem_cons.mp hch with h | h
      · rw [h]
        simp [List.length_take]
      · refine ih ((c :: rest).drop b) ?_ ch h
        simp only [List.length_drop, List.length_cons] at *
        omega

/-- Concatenating the chunks of `wrapChunks` reproduces the text. -/
theorem wrapChunks_flatten (b : Nat) (s : List Char) :
    (wrapChunks b s).flatten = s :=
  wrapChunksAux_flatten b s.length s

/-- With positive budget, every chunk of `wrapChunks` respects the budget. -/
theorem wrapChunks_length_le (b : Nat) (hb : 1 ≤ b) (s : List Char) :
    ∀ ch ∈ wrapChunks b s, ch.length ≤ b :=
  wrapChunksAux_length_le b hb s.length s le_rfl

/-! ## Lemmas: decimal rendering is injective -/

/-- `ofDecimal` recovers the number from its little-endian digits. -/
theorem ofDecimal_natDigitsAux :
    ∀ fuel n, n ≤ fuel → ofDecimal (natDigitsAux fuel n) = n := by
  intro fuel
  induction fuel with
  | zero =>
    intro n hn
    interval_cases n
    rfl
  | succ k ih =>
    intro n hn
    match n with
    | 0 => rfl
    | m + 1 =>
      rw [natDigitsAux, ofDecimal]
      rw [ih ((m + 1) / 10) (by omega)]
      omega

/-- Every digit produced by `natDigitsAux` is a decimal digit. -/
theorem natDigitsAux_lt_ten :
    ∀ fuel n d, d ∈ natDigitsAux fuel n → d < 10 := by
  intro fuel
  induction fuel with
  | zero =>
    intro n d hd
    match n with
    | 0 => simp [natDigitsAux] at hd
    | m + 1 => simp [natDigitsAux] at hd
  | succ k ih =>
    intro n d hd
    match n with
    | 0 => simp [natDigitsAux] at hd
    | m + 1 =>
      rw [natDigitsAux] at hd
      rcases List.mem_cons.mp hd with h | h
      · omega
      · exact ih _ d h

/-- `charToDigit` undoes `digitChar` on decimal digits. -/
theorem charToDigit_digitChar (d : Nat) (hd : d < 10) :
    charToDigit (digitChar d) = d := by
  interval_cases d <;> decide

/-- `natVal` recovers the number from its decimal rendering. -/
theorem natVal_natRepr (n : Nat) : natVal (natRepr n) = n := by
  rw [natRepr]
  split
  · rename_i h
    rw [h]
    decide
  · rw [natVal, List.reverse_reverse]
    have hmap : List.map charToDigit (List.map digitChar (natDigitsAux n n)) =
        natDigitsAux n n := by
      rw [List.map_map]
      have hcong : ∀ d ∈ natDigitsAux n n, (charToDigit ∘ digitChar) d = id d :=
        fun d hd => charToDigit_digitChar d (natDigitsAux_lt_ten n n d hd)
      rw [List.map_congr_left hcong, List.map_id]
    rw [hmap]
    exact ofDecimal_natDigitsAux n n le_rfl

/-- Decimal rendering is injective. -/
theorem natRepr_injective : Function.Injective natRepr := by
  intro m n h
  have := congrArg natVal h
  rwa [natVal_natRepr, natVal_natRepr] at this

/-! ## Lemmas: synthetic identifiers -/

/-- Distinct indices yield distinct user-mention identifiers. -/
theorem userMentionIdent_injective : Function.Injective userMentionIdent := by
  intro i j h
  exact natRepr_injective (List.append_cancel_left h)

/-- Distinct indices yield distinct channel-mention identifiers. -/
theorem channelMentionIdent_injective :
    Function.Injective channelMentionIdent := by
  intro i j h
  exact natRepr_injective (List.append_cancel_left h)

/-- Distinct indices yield distinct role-mention identifiers. -/
theorem roleMentionIdent_injective : Function.Injective roleMentionIdent := by
  intro i j h
  exact natRepr_injective (List.append_cancel_left h)

/-- A user-mention identifier is never a channel-mention identifier. -/
theorem userMentionIdent_ne_channelMentionIdent (i j : Nat) :
    userMentionIdent i ≠ channelMentionIdent j := by
  intro h
  have h3 := congrArg (List.take 3) h
  rw [userMentionIdent, channelMentionIdent,
    List.take_append_of_le_length (by decide),
    List.take_append_of_le_length (by decide)] at h3
  revert h3
  decide

/-- A user-mention identifier is never a role-mention identifier. -/
theorem userMentionIdent_ne_roleMentionIdent (i j : Nat) :
    userMentionIdent i ≠ roleMentionIdent j := by
  intro h
  have h3 := congrArg (List.take 3) h
  rw [userMentionIdent, roleMentionIdent,
    List.take_append_of_le_length (by decide),
    List.take_append_of_le_length (by decide)] at h3
  revert h3
  decide

/-- A channel-mention identifier is never a role-mention identifier. -/
theorem channelMentionIdent_ne_roleMentionIdent (i j : Nat) :
    channelMentionIdent i ≠ roleMentionIdent j := by
  intro h
  have h3 := congrArg (List.take 3) h
  rw [channelMentionIdent, roleMentionIdent,
    List.take_append_of_le_length (by decide),
    List.take_append_of_le_length (by decide)] at h3
  revert h3
  decide

/-! ## Lemmas: Python dict operations -/

/-- Looking up the just-assigned key finds the new value. -/
theorem dictGet_dictInsert_self {α : Type} (d : List (List Char × α))
    (k : List Char) (v : α) : dictGet (dictInsert d k v) k = some v := by
  induction d with
  | nil => simp [dictInsert, dictGet]
  | cons p rest ih =>
    rw [dictInsert]
    split
    · simp [dictGet]
    · rename_i hne
      rw [dictGet, if_neg (by simpa using hne)]
      exact ih

/-- Assigning one key does not change lookups of another. -/
theorem dictGet_dictInsert_ne {α : Type} (d : List (List Char × α))
    (k' k : List Char) (v : α) (h : k' ≠ k) :
    dictGet (dictInsert d k' v) k = dictGet d k := by
  induction d with
  | nil => simp [dictInsert, dictGet, h]
  | cons p rest ih =>
    rw [dictInsert]
    split
    · rename_i heq
      rw [dictGet, if_neg (by simpa using h), dictGet,
        if_neg (by simp [eq_of_beq heq]; exact fun hc => h (hc ▸ rfl))]
    · rw [dictGet, dictGet]
      split
      · rfl
      · exact ih

/-- Assigning an absent key appends the pair at the end. -/
theorem dictInsert_of_get_none {α : Type} (d : List (List Char × α))
    (k : List Char) (v : α) (h : dictGet d k = none) :
    dictInsert d k v = d ++ [(k, v)] := by
  induction d with
  | nil => rfl
  | cons p rest ih =>
    rw [dictGet] at h
    rw [dictInsert]
    split
    · rename_i heq
      rw [if_pos heq] at h
      cases h
    · rename_i hne
      rw [if_neg hne] at h
      rw [ih h, List.cons_append]

/-- Lookup in a concatenation tries the left part first. -/
theorem dictGet_append {α : Type} (d1 d2 : List (List Char × α))
    (k : List Char) :
    dictGet (d1 ++ d2) k =
      match dictGet d1 k with
      | some v => some v
      | none => dictGet d2 k := by
  induction d1 with
  | nil => simp [dictGet]
  | cons p rest ih =>
    rw [List.cons_append, dictGet, dictGet]
    split
    · rfl
    · exact ih

/-! ## Lemmas: the mention-binding loops -/

/-- Every index in `enumFrom i l` is at least `i`. -/
theorem enumFrom_fst_ge {α : Type} :
    ∀ (l : List α) (i : Nat) (p : Nat × α), p ∈ l.enumFrom i → i ≤ p.1 := by
  intro l
  induction l with
  | nil =>
    intro i p hp
    simp [List.enumFrom] at hp
  | cons a rest ih =>
    intro i p hp
    rcases List.mem_cons.mp hp with h | h
    · rw [h]
    · exact Nat.le_of_succ_le (ih (i + 1) p h)

/-- When all mention texts are fresh and pairwise distinct, the loop
appends one convertable entry per entity, in order. -/
theorem mentionLoop_snd_append (mk : Nat → List Char) (wrap : Entity → Val) :
    ∀ (es : List Entity) (i : Nat) (d : List (List Char × Val))
      (cv : List (List Char × List Char)),
      (∀ e ∈ es, dictGet cv e.mention = none) →
      (es.map Entity.mention).Nodup →
      (mentionLoop mk wrap i es (d, cv)).2 =
        cv ++ (es.enumFrom i).map (fun p => (p.2.mention, mk p.1)) := by
  intro es
  induction es with
  | nil =>
    intro i d cv _ _
    simp [mentionLoop, List.enumFrom]
  | cons e rest ih =>
    intro i d cv hfresh hnodup
    rw [mentionLoop]
    rw [dictInsert_of_get_none cv e.mention (mk i) (hfresh e (by simp))]
    have hnodup' : (rest.map Entity.mention).Nodup := by
      simpa using hnodup.of_cons
    have hfresh' : ∀ e' ∈ rest, dictGet (cv ++ [(e.mention, mk i)])
        e'.mention = none := by
      intro e' he'
      rw [dictGet_append]
      rw [hfresh e' (by simp [he'])]
      have hne : e'.mention ≠ e.mention := by
        intro hc
        have : e.mention ∈ rest.map Entity.mention :=
          List.mem_map.mpr ⟨e', he', hc⟩
        simp only [List.map_cons, List.nodup_cons] at hnodup
        exact hnodup.1 this
      simp only [dictGet, beq_iff_eq]
      rw [if_neg (fun hc => hne hc.symm)]
    rw [ih (i + 1) _ _ hfresh' hnodup']
    simp [List.enumFrom]

/-- The loop does not touch arg-dict keys other than the identifiers it
binds. -/
theorem mentionLoop_fst_get_ne (mk : Nat → List Char) (wrap : Entity → Val) :
    ∀ (es : List Entity) (i : Nat) (d : List (List Char × Val))
      (cv : List (List Char × List Char)) (k : List Char),
      (∀ p ∈ es.enumFrom i, k ≠ mk p.1) →
      dictGet (mentionLoop mk wrap i es (d, cv)).1 k = dictGet d k := by
  intro es
  induction es with
  | nil =>
    intro i d cv k _
    rfl
  | cons e rest ih =>
    intro i d cv k hk
    rw [mentionLoop]
    rw [ih (i + 1) _ _ k (fun p hp => hk p (List.mem_cons_of_mem _ hp))]
    exact dictGet_dictInsert_ne d (mk i) k (wrap e)
      (Ne.symm (hk (i, e) (List.mem_cons_self _ _)))

/-- After the loop, each entity's identifier is bound to that entity. -/
theorem mentionLoop_fst_get_mem (mk : Nat → List Char) (wrap : Entity → Val)
    (hinj : Function.Injective mk) :
    ∀ (es : List Entity) (i : Nat) (d : List (List Char × Val))
      (cv : List (List Char × List Char)) (p : Nat × Entity),
      p ∈ es.enumFrom i →
      dictGet (mentionLoop mk wrap i es (d, cv)).1 (mk p.1) =
        some (wrap p.2) := by
  intro es
  induction es with
  | nil =>
    intro i d cv p hp
    simp [List.enumFrom] at hp
  | cons e rest ih =>
    intro i d cv p hp
    rcases List.mem_cons.mp hp with h | h
    · rw [h]
      rw [mentionLoop]
      rw [mentionLoop_fst_get_ne mk wrap rest (i + 1) _ _ (mk i) ?hne]
      · exact dictGet_dictInsert_self d (mk i) (wrap e)
      case hne =>
        intro q hq hc
        have hge := enumFrom_fst_ge rest (i + 1) q hq
        have := hinj hc
        omega
    · rw [mentionLoop]
      exact ih (i + 1) _ _ p h

/-! ## Lemmas: dispatcher structure -/

/-- A value that is not message-, file-, embed- or paginator-typed falls
through to text handling on its text (`repr`-normalized for
non-strings). -/
theorem result_handling_text (ctx : Ctx) (v : RuntimeVal)
    (h1 : v.asMessage = none) (h2 : v.asFile = none) (h3 : v.asEmbed = none)
    (h4 : v.asPaginator = none) :
    jsk_python_result_handling ctx v = handleText ctx v.textOf := by
  unfold jsk_python_result_handling
  rw [h1, h2, h3, h4]
  cases hs : v.asStr with
  | none => simp [RuntimeVal.textOf, hs]
  | some s => simp [RuntimeVal.textOf, hs]

/-! ## The claims -/

/-- Claim C1: result dispatch classification is total and deterministic:
for every produced value exactly one of the seven outcome branches fires,
the branches are tested in order (chat-native message, file, embed,
paginator interface, then the text rules after repr-normalizing
non-strings) with first match winning, and a value of
message/file/embed/paginator type never reaches the text-handling
rules. -/
theorem claim1_dispatch_classification (ctx : Ctx) (v : RuntimeVal) :
    (∃! o : Outcome, outcomeOf ctx v = o) ∧
    (v.asMessage ≠ none → outcomeOf ctx v = .chatNative) ∧
    (v.asMessage = none → v.asFile ≠ none → outcomeOf ctx v = .fileSend) ∧
    (v.asMessage = none → v.asFile = none → v.asEmbed ≠ none →
      outcomeOf ctx v = .embedSend) ∧
    (v.asMessage = none → v.asFile = none → v.asEmbed = none →
      v.asPaginator ≠ none → outcomeOf ctx v = .paginatorSend) ∧
    ((outcomeOf ctx v).isText = true →
      v.asMessage = none ∧ v.asFile = none ∧ v.asEmbed = none ∧
      v.asPaginator = none ∧
      jsk_python_result_handling ctx v = handleText ctx v.textOf) := by
  refine ⟨⟨outcomeOf ctx v, rfl, fun y hy => hy.symm⟩, ?_, ?_, ?_, ?_, ?_⟩
  · intro hm
    obtain ⟨m, hm⟩ := Option.ne_none_iff_exists'.mp hm
    unfold outcomeOf
    rw [hm]
  · intro h1 hf
    obtain ⟨f, hf⟩ := Option.ne_none_iff_exists'.mp hf
    unfold outcomeOf
    rw [h1, hf]
  · intro h1 h2 he
    obtain ⟨e, he⟩ := Option.ne_none_iff_exists'.mp he
    unfold outcomeOf
    rw [h1, h2, he]
  · intro h1 h2 h3 hp
    obtain ⟨p, hp⟩ := Option.ne_none_iff_exists'.mp hp
    unfold outcomeOf
    rw [h1, h2, h3, hp]
  · intro htext
    by_cases h1 : v.asMessage = none
    · by_cases h2 : v.asFile = none
      · by_cases h3 : v.asEmbed = none
        · by_cases h4 : v.asPaginator = none
          · exact ⟨h1, h2, h3, h4, result_handling_text ctx v h1 h2 h3 h4⟩
          · exfalso
            obtain ⟨p, hp⟩ := Option.ne_none_iff_exists'.mp h4
            unfold outcomeOf at htext
            rw [h1, h2, h3, hp] at htext
            simp [Outcome.isText] at htext
        · exfalso
          obtain ⟨e, he⟩ := Option.ne_none_iff_exists'.mp h3
          unfold outcomeOf at htext
          rw [h1, h2, he] at htext
          simp [Outcome.isText] at htext
      · exfalso
        obtain ⟨f, hf⟩ := Option.ne_none_iff_exists'.mp h2
        unfold outcomeOf at htext
        rw [h1, hf] at htext
        simp [Outcome.isText] at htext
    · exfalso
      obtain ⟨m, hm⟩ := Option.ne_none_iff_exists'.mp h1
      unfold outcomeOf at htext
      rw [hm] at htext
      simp [Outcome.isText] at htext

/-- Witness for C1: a value that is simultaneously message-typed and a
string is classified chat-native — the first branch wins. -/
theorem claim1_witness :
    outcomeOf
      { token := none, useFileCheck := fun _ => false, author := 0, bot := 0,
        interaction := none, mentions := [], channelMentions := [],
        roleMentions := [], varDict := [] }
      { asMessage := some ⟨"u".data⟩, asFile := none, asEmbed := none,
        asPaginator := none, asStr := some "hello".data,
        reprOf := [] } = .chatNative :=
  (claim1_dispatch_classification _ _).2.1 (by simp)

/-- Claim C3: every short-text dispatch (text of length at most 2000)
performs its send with all mention-notification types disabled, for every
possible text content. -/
theorem claim3_mention_suppression (ctx : Ctx) (v : RuntimeVal)
    (h1 : v.asMessage = none) (h2 : v.asFile = none) (h3 : v.asEmbed = none)
    (h4 : v.asPaginator = none) (hlen : v.textOf.length ≤ 2000) :
    ∃ call : SendCall,
      jsk_python_result_handling ctx v = .send call ∧
      call.allowedMentions = some AllowedMentions.noneAllowed ∧
      AllowedMentions.noneAllowed.everyone = false ∧
      AllowedMentions.noneAllowed.users = false ∧
      AllowedMentions.noneAllowed.roles = false ∧
      AllowedMentions.noneAllowed.repliedUser = false := by
  rw [result_handling_text ctx v h1 h2 h3 h4]
  rw [handleText, if_pos hlen]
  exact ⟨_, rfl, rfl, rfl, rfl, rfl, rfl⟩

/-- Witness for C3: the short text `"@everyone"` is sent with the
all-disabled mention allowance. -/
theorem claim3_witness :
    ("@everyone".data.length ≤ 2000) ∧
    ∃ call : SendCall,
      jsk_python_result_handling
        { token := none, useFileCheck := fun _ => false, author := 0, bot := 0,
          interaction := none, mentions := [], channelMentions := [],
          roleMentions := [], varDict := [] }
        { asMessage := none, asFile := none, asEmbed := none,
          asPaginator := none, asStr := some "@everyone".data,
          reprOf := [] } = .send call ∧
      call.allowedMentions = some AllowedMentions.noneAllowed ∧
      AllowedMentions.noneAllowed.everyone = false ∧
      AllowedMentions.noneAllowed.users = false ∧
      AllowedMentions.noneAllowed.roles = false ∧
      AllowedMentions.noneAllowed.repliedUser = false :=
  ⟨by decide, claim3_mention_suppression _ _ rfl rfl rfl rfl (by decide)⟩

/-- Claim C8: the scope accessor is a two-state machine: with retention
on it returns the stored persistent scope on every access, with retention
off it returns a structurally empty fresh scope on every access, so no
mutation through one access is visible through a later one. -/
theorem claim8_scope_two_state (f g : PythonFeature) :
    (f.retain = true → f.scope = f.internalScope) ∧
    (f.retain = false →
      f.scope = Scope.new ∧ f.scope.bindings = [] ∧
      (g.retain = false → f.scope = g.scope)) := by
  constructor
  · intro h
    rw [PythonFeature.scope, if_pos h]
  · intro h
    rw [PythonFeature.scope, if_neg (by simp [h])]
    refine ⟨rfl, rfl, fun hg => ?_⟩
    rw [PythonFeature.scope, if_neg (by simp [hg])]

/-- Witness for C8: a retaining feature returns its stored scope; an
ephemeral feature with the same stored scope returns the empty one. -/
theorem claim8_witness :
    (PythonFeature.scope ⟨⟨[("x".data, Val.noneVal)]⟩, true, Val.noneVal⟩ =
      ⟨[("x".data, Val.noneVal)]⟩) ∧
    (PythonFeature.scope ⟨⟨[("x".data, Val.noneVal)]⟩, false, Val.noneVal⟩ =
      Scope.new) :=
  ⟨(claim8_scope_two_state ⟨⟨[("x".data, Val.noneVal)]⟩, true, Val.noneVal⟩
      ⟨⟨[]⟩, true, Val.noneVal⟩).1 rfl,
    ((claim8_scope_two_state ⟨⟨[("x".data, Val.noneVal)]⟩, false, Val.noneVal⟩
      ⟨⟨[]⟩, true, Val.noneVal⟩).2 rfl).1⟩

/-- Claim C9: a chat-native message-like value is forwarded to the
channel (as a send referencing its jump URL) and the send result is the
retained value. -/
theorem claim9_message_forward (ctx : Ctx) (v : RuntimeVal) (m : DMessage)
    (hm : v.asMessage = some m) :
    jsk_python_result_handling ctx v =
      .send { content := some ("<Message <".data ++ m.jumpUrl ++ ">>".data),
              file := none, embed := none, allowedMentions := none } ∧
    retainedOf (jsk_python_result_handling ctx v) =
      .sendResult
        { content := some ("<Message <".data ++ m.jumpUrl ++ ">>".data),
          file := none, embed := none, allowedMentions := none } := by
  unfold jsk_python_result_handling
  rw [hm]
  exact ⟨rfl, rfl⟩

/-- Witness for C9: a concrete message with jump URL `"u"` dispatches as
the jump-URL send, and that send's result is retained. -/
theorem claim9_witness :
    jsk_python_result_handling
      { token := none, useFileCheck := fun _ => false, author := 0, bot := 0,
        interaction := none, mentions := [], channelMentions := [],
        roleMentions := [], varDict := [] }
      { asMessage := some ⟨"u".data⟩, asFile := none, asEmbed := none,
        asPaginator := none, asStr := none, reprOf := [] } =
      .send { content := some "<Message <u>>".data, file := none,
              embed := none, allowedMentions := none } :=
  ((claim9_message_forward _ _ ⟨"u".data⟩ rfl).1).trans (by decide)

/-- Counterexample for C4: with the process credential equal to the
placeholder character itself, an empty text result is dispatched as the
redaction marker, not as the placeholder — redaction runs after the
placeholder substitution. -/
theorem claim4_counterexample :
    pyStrip ([] : List Char) = [] ∧ (([] : List Char).length ≤ 2000) ∧
    sentContent (jsk_python_result_handling
      { token := some zwsp, useFileCheck := fun _ => false, author := 0,
        bot := 0, interaction := none, mentions := [], channelMentions := [],
        roleMentions := [], varDict := [] }
      { asMessage := none, asFile := none, asEmbed := none,
        asPaginator := none, asStr := some [], reprOf := [] }) =
      some redactionMarker ∧
    redactionMarker ≠ zwsp := by
  exact ⟨rfl, by decide, by decide, by decide⟩

/-- Claim C4 (amended): for every empty-or-whitespace text result of
length at most 2000 the dispatched content is nonempty, and it is exactly
the zero-width placeholder unless the credential is the placeholder
character itself (in which case redaction rewrites it to the marker). -/
theorem claim4_empty_text_placeholder (ctx : Ctx) (v : RuntimeVal)
    (h1 : v.asMessage = none) (h2 : v.asFile = none) (h3 : v.asEmbed = none)
    (h4 : v.asPaginator = none) (hlen : v.textOf.length ≤ 2000)
    (hempty : pyStrip v.textOf = []) :
    (∃ content, sentContent (jsk_python_result_handling ctx v) = some content ∧
      content ≠ []) ∧
    (ctx.token ≠ some zwsp →
      sentContent (jsk_python_result_handling ctx v) = some zwsp) := by
  rw [result_handling_text ctx v h1 h2 h3 h4, handleText, if_pos hlen]
  simp only [sentContent]
  rw [if_pos hempty]
  constructor
  · exact ⟨redactToken ctx.token zwsp, rfl,
      redactToken_ne_nil ctx.token zwsp (by decide)⟩
  · intro htok
    cases htok2 : ctx.token with
    | none => rfl
    | some tk =>
      rw [redactToken]
      split
      · rfl
      · rename_i hne
        have htkne : tk ≠ [] := by
          intro hc
          rw [hc] at hne
          exact hne rfl
        have htkzw : tk ≠ zwsp := by
          intro hc
          rw [htok2, hc] at htok
          exact htok rfl
        have hz : pyReplace zwsp tk redactionMarker = zwsp :=
          pyReplace_singleton tk redactionMarker '​' htkne htkzw
        exact congrArg some hz

/-- Witness for C4 (amended): the all-whitespace text `"  "` with no
credential set dispatches as exactly the placeholder. -/
theorem claim4_witness :
    pyStrip "  ".data = [] ∧
    sentContent (jsk_python_result_handling
      { token := none, useFileCheck := fun _ => false, author := 0,
        bot := 0, interaction := none, mentions := [], channelMentions := [],
        roleMentions := [], varDict := [] }
      { asMessage := none, asFile := none, asEmbed := none,
        asPaginator := none, asStr := some "  ".data, reprOf := [] }) =
      some zwsp :=
  ⟨by decide,
    (claim4_empty_text_placeholder _ _ rfl rfl rfl rfl (by decide)
      (by decide)).2 (by simp)⟩

/-- Counterexample for C2: with credential `"]x"` the short text `"]xx"`
(length 3, containing the credential) is dispatched as
`"[token omitted]x"`, in which the credential `"]x"` still occurs — the
marker's closing bracket juxtaposed with the remaining text recreates
it. -/
theorem claim2_counterexample :
    ("]xx".data.length ≤ 2000) ∧
    occursIn "]x".data "]xx".data = true ∧
    sentContent (jsk_python_result_handling
      { token := some "]x".data, useFileCheck := fun _ => false, author := 0,
        bot := 0, interaction := none, mentions := [], channelMentions := [],
        roleMentions := [], varDict := [] }
      { asMessage := none, asFile := none, asEmbed := none,
        asPaginator := none, asStr := some "]xx".data, reprOf := [] }) =
      some "[token omitted]x".data ∧
    occursIn "]x".data "[token omitted]x".data = true := by
  exact ⟨by decide, by decide, by decide, by decide⟩

/-- Claim C2 (amended): for every text result of length at most 2000,
when the credential is a nonempty string the dispatched content is
exactly the left-to-right replacement of every occurrence of the
credential by the fixed marker (applied after the empty-text placeholder
substitution); occurrences of the credential recreated across a
replacement boundary may survive. -/
theorem claim2_redaction_replaces_all (ctx : Ctx) (v : RuntimeVal)
    (h1 : v.asMessage = none) (h2 : v.asFile = none) (h3 : v.asEmbed = none)
    (h4 : v.asPaginator = none) (tk : List Char) (htok : ctx.token = some tk)
    (htk : tk ≠ []) (hlen : v.textOf.length ≤ 2000) :
    sentContent (jsk_python_result_handling ctx v) =
      some (pyReplace (if pyStrip v.textOf = [] then zwsp else v.textOf) tk
        redactionMarker) := by
  rw [result_handling_text ctx v h1 h2 h3 h4, handleText, if_pos hlen]
  simp only [sentContent]
  rw [htok, redactToken]
  rw [if_neg (by simp [htk])]

/-- Witness for C2 (amended): with credential `"ab"`, the text `"xabx"`
is dispatched with its one occurrence replaced by the marker. -/
theorem claim2_witness :
    occursIn "ab".data "xabx".data = true ∧
    sentContent (jsk_python_result_handling
      { token := some "ab".data, useFileCheck := fun _ => false, author := 0,
        bot := 0, interaction := none, mentions := [], channelMentions := [],
        roleMentions := [], varDict := [] }
      { asMessage := none, asFile := none, asEmbed := none,
        asPaginator := none, asStr := some "xabx".data, reprOf := [] }) =
      some "x[token omitted]x".data :=
  ⟨by decide,
    (claim2_redaction_replaces_all _ _ rfl rfl rfl rfl "ab".data rfl
      (by decide) (by decide)).trans (by decide)⟩

/-- Claim C5: a text result longer than 2000 characters that passes the
inline-preview check is dispatched as a single file named `output.py`
whose bytes are the UTF-8 encoding of the exact text, and decoding those
bytes reproduces the text exactly; no pagination. -/
theorem claim5_inline_file_roundtrip (ctx : Ctx) (v : RuntimeVal)
    (h1 : v.asMessage = none) (h2 : v.asFile = none) (h3 : v.asEmbed = none)
    (h4 : v.asPaginator = none) (hlen : 2000 < v.textOf.length)
    (hcheck : ctx.useFileCheck v.textOf.length = true) :
    jsk_python_result_handling ctx v =
      .send { content := none,
              file := some ⟨"output.py".data, utf8Encode v.textOf⟩,
              embed := none, allowedMentions := none } ∧
    utf8Decode (utf8Encode v.textOf) = some v.textOf := by
  rw [result_handling_text ctx v h1 h2 h3 h4, handleText,
    if_neg (by omega), if_pos hcheck]
  exact ⟨rfl, utf8Decode_utf8Encode _⟩

/-- Witness for C5: a 2001-character text is past the message cap, and
its file bytes decode back to it exactly. -/
theorem claim5_witness :
    (2000 < (List.replicate 2001 'a').length) ∧
    utf8Decode (utf8Encode (List.replicate 2001 'a')) =
      some (List.replicate 2001 'a') :=
  ⟨by simp only [List.length_replicate]; omega,
    (claim5_inline_file_roundtrip
      { token := none, useFileCheck := fun _ => true, author := 0,
        bot := 0, interaction := none, mentions := [], channelMentions := [],
        roleMentions := [], varDict := [] }
      { asMessage := none, asFile := none, asEmbed := none,
        asPaginator := none, asStr := some (List.replicate 2001 'a'),
        reprOf := [] } rfl rfl rfl rfl
      (by simp only [RuntimeVal.textOf, Option.getD_some, List.length_replicate]
          omega) rfl).2⟩

set_option maxRecDepth 8000 in
/-- Claim C10: the 2000-character short-text classification is decided on
the pre-redaction length: a 143-character text consisting of the
(1-character) credential repeated is classified short text, yet after
each occurrence is replaced by the 15-character marker the dispatched
content has 2145 characters, exceeding the 2000-character cap. -/
theorem claim10_pre_redaction_length :
    ((List.replicate 143 'a').length ≤ 2000) ∧
    occursIn ['a'] (List.replicate 143 'a') = true ∧
    outcomeOf
      { token := some ['a'], useFileCheck := fun _ => false, author := 0,
        bot := 0, interaction := none, mentions := [], channelMentions := [],
        roleMentions := [], varDict := [] }
      { asMessage := none, asFile := none, asEmbed := none,
        asPaginator := none, asStr := some (List.replicate 143 'a'),
        reprOf := [] } = .shortText ∧
    ∃ content,
      sentContent (jsk_python_result_handling
        { token := some ['a'], useFileCheck := fun _ => false, author := 0,
          bot := 0, interaction := none, mentions := [], channelMentions := [],
          roleMentions := [], varDict := [] }
        { asMessage := none, asFile := none, asEmbed := none,
          asPaginator := none, asStr := some (List.replicate 143 'a'),
          reprOf := [] }) = some content ∧ 2000 < content.length := by
  refine ⟨by simp only [List.length_replicate]; omega, by decide, by decide, ?_⟩
  rw [result_handling_text _ _ rfl rfl rfl rfl]
  have htext : RuntimeVal.textOf
      { asMessage := none, asFile := none, asEmbed := none,
        asPaginator := none, asStr := some (List.replicate 143 'a'),
        reprOf := [] } = List.replicate 143 'a' := rfl
  rw [htext]
  rw [handleText, if_pos (by simp only [List.length_replicate]; omega)]
  simp only [sentContent]
  rw [if_neg (by decide)]
  refine ⟨_, rfl, ?_⟩
  rw [redactToken]
  rw [if_neg (by decide)]
  rw [pyReplace, if_neg (by decide)]
  rw [List.length_replicate]
  rw [pyReplaceAux_replicate_length]
  decide

/-- Every rendered page of a paginator whose fences and joining newlines
fit its budget stays within `maxSize`. -/
theorem pages_le_maxSize (p : WrappedPaginator)
    (hfit : p.prefixText.length + p.suffixText.length + 3 ≤ p.maxSize) :
    ∀ page ∈ p.pages, page.length ≤ p.maxSize := by
  intro page hp
  rw [WrappedPaginator.pages] at hp
  obtain ⟨ch, hch, rfl⟩ := List.mem_map.mp hp
  have hb := wrapChunks_length_le
    (p.maxSize - (p.prefixText.length + p.suffixText.length + 2))
    (by omega) p.text ch hch
  simp only [List.length_append, List.length_cons]
  omega

/-- Counterexample for C6: on a 2001-character text failing the
inline-preview check, the dispatcher constructs its paginator with the
5-character opening fence `'```py'`, not a 7-character one. -/
theorem claim6_counterexample :
    jsk_python_result_handling
      { token := none, useFileCheck := fun _ => false, author := 9, bot := 7,
        interaction := none, mentions := [], channelMentions := [],
        roleMentions := [], varDict := [] }
      { asMessage := none, asFile := none, asEmbed := none,
        asPaginator := none, asStr := some (List.replicate 2001 'a'),
        reprOf := [] } =
      .sendTo { bot := 7,
                paginator := { prefixText := "```py".data,
                               suffixText := "```".data, maxSize := 1980,
                               text := List.replicate 2001 'a' },
                owner := 9 } ∧
    ("```py".data).length = 5 ∧ (("```py".data).length = 7 → False) := by
  refine ⟨?_, by decide, by decide⟩
  rw [result_handling_text _ _ rfl rfl rfl rfl]
  have htext : RuntimeVal.textOf
      { asMessage := none, asFile := none, asEmbed := none,
        asPaginator := none, asStr := some (List.replicate 2001 'a'),
        reprOf := [] } = List.replicate 2001 'a' := rfl
  rw [htext]
  rw [handleText, if_neg (by simp only [List.length_replicate]; omega),
    if_neg (by simp)]
  rfl

/-- Claim C6 (amended): a text result exceeding the inline-preview
threshold is dispatched as a paginated view owned by the invoking caller,
built on the caller's bot, with page-size budget 1980, the 5-character
opening fence `'```py'` and the 3-character closing fence `'```'` (each
page also spends two joining newlines, 10 fence characters in all); every
rendered page stays within 1980 characters, and concatenating the chunks
(the pages stripped of their fences) reproduces the text exactly. -/
theorem claim6_paginated_dispatch (ctx : Ctx) (v : RuntimeVal)
    (h1 : v.asMessage = none) (h2 : v.asFile = none) (h3 : v.asEmbed = none)
    (h4 : v.asPaginator = none) (hlen : 2000 < v.textOf.length)
    (hcheck : ctx.useFileCheck v.textOf.length = false) :
    ∃ iface : PaginatorInterface,
      jsk_python_result_handling ctx v = .sendTo iface ∧
      iface.owner = ctx.author ∧
      iface.bot = ctx.bot ∧
      iface.paginator.maxSize = 1980 ∧
      iface.paginator.prefixText = "```py".data ∧
      iface.paginator.prefixText.length = 5 ∧
      iface.paginator.suffixText = "```".data ∧
      iface.paginator.suffixText.length = 3 ∧
      iface.paginator.text = v.textOf ∧
      (∀ page ∈ iface.paginator.pages, page.length ≤ 1980) ∧
      (wrapChunks (iface.paginator.maxSize - (iface.paginator.prefixText.length +
          iface.paginator.suffixText.length + 2))
        iface.paginator.text).flatten = v.textOf := by
  rw [result_handling_text ctx v h1 h2 h3 h4, handleText, if_neg (by omega),
    if_neg (by simp [hcheck])]
  refine ⟨_, rfl, rfl, rfl, rfl, rfl,
    by show ("```py".data).length = 5; decide, rfl,
    by show ("```".data).length = 3; decide, rfl, ?_, ?_⟩
  · refine fun page hp => pages_le_maxSize _ ?_ page hp
    show ("```py".data).length + ("```".data).length + 3 ≤ 1980
    decide
  · exact wrapChunks_flatten _ _

/-- Witness for C6 (amended): a concrete 2001-character text failing the
inline-preview check dispatches as an owned paginated view with the
stated fences and budget. -/
theorem claim6_witness :
    (2000 < (List.replicate 2001 'a').length) ∧
    ∃ iface : PaginatorInterface,
      jsk_python_result_handling
        { token := none, useFileCheck := fun _ => false, author := 9, bot := 7,
          interaction := none, mentions := [], channelMentions := [],
          roleMentions := [], varDict := [] }
        { asMessage := none, asFile := none, asEmbed := none,
          asPaginator := none, asStr := some (List.replicate 2001 'a'),
          reprOf := [] } = .sendTo iface ∧
      iface.owner = 9 ∧
      iface.bot = 7 ∧
      iface.paginator.maxSize = 1980 ∧
      iface.paginator.prefixText = "```py".data ∧
      iface.paginator.prefixText.length = 5 ∧
      iface.paginator.suffixText = "```".data ∧
      iface.paginator.suffixText.length = 3 ∧
      iface.paginator.text = List.replicate 2001 'a' ∧
      (∀ page ∈ iface.paginator.pages, page.length ≤ 1980) ∧
      (wrapChunks (iface.paginator.maxSize - (iface.paginator.prefixText.length +
          iface.paginator.suffixText.length + 2))
        iface.paginator.text).flatten = List.replicate 2001 'a' :=
  ⟨by simp only [List.length_replicate]; omega,
    claim6_paginated_dispatch _ _ rfl rfl rfl rfl
      (by simp only [RuntimeVal.textOf, Option.getD_some, List.length_replicate]
          omega) rfl⟩

/-- A key matching no entry is absent. -/
theorem dictGet_eq_none {α : Type} (d : List (List Char × α)) (k : List Char)
    (h : ∀ p ∈ d, p.1 ≠ k) : dictGet d k = none := by
  induction d with
  | nil => rfl
  | cons p rest ih =>
    rw [dictGet, if_neg (by simpa using h p (by simp))]
    exact ih (fun q hq => h q (by simp [hq]))

/-- Every entry of `enumFrom i l` carries an element of `l`. -/
theorem enumFrom_snd_mem {α : Type} :
    ∀ (l : List α) (i : Nat) (p : Nat × α), p ∈ l.enumFrom i → p.2 ∈ l := by
  intro l
  induction l with
  | nil =>
    intro i p hp
    simp [List.enumFrom] at hp
  | cons a rest ih =>
    intro i p hp
    rcases List.mem_cons.mp hp with h | h
    · rw [h]
      exact List.mem_cons_self a rest
    · exact List.mem_cons_of_mem a (ih (i + 1) p h)

/-- Claim C7: for an invocation whose raw message mentions N accounts, M
channels and K roles (with pairwise-distinct mention texts),
`get_convertables` produces exactly N+M+K convertable entries — users,
channels, roles, each in arrival order with its own index sequence from
0 — with pairwise-distinct synthetic identifiers, each mention text
mapped to its identifier and each identifier bound in the arg dict to the
corresponding entity; and every interaction-based invocation yields an
empty convertable map regardless of its mentions. -/
theorem claim7_argument_binder (f : PythonFeature) (ctx : Ctx)
    (hmsg : ctx.interaction = none)
    (hnodup : ((ctx.mentions ++ ctx.channelMentions ++ ctx.roleMentions).map
      Entity.mention).Nodup) :
    (jsk_python_get_convertables f ctx).2 =
      (ctx.mentions.enumFrom 0).map
        (fun p => (p.2.mention, userMentionIdent p.1)) ++
      (ctx.channelMentions.enumFrom 0).map
        (fun p => (p.2.mention, channelMentionIdent p.1)) ++
      (ctx.roleMentions.enumFrom 0).map
        (fun p => (p.2.mention, roleMentionIdent p.1)) ∧
    (jsk_python_get_convertables f ctx).2.length =
      ctx.mentions.length + ctx.channelMentions.length +
        ctx.roleMentions.length ∧
    ((jsk_python_get_convertables f ctx).2.map Prod.snd).Nodup ∧
    (∀ p ∈ ctx.mentions.enumFrom 0,
      dictGet (jsk_python_get_convertables f ctx).1 (userMentionIdent p.1) =
        some (Val.user p.2)) ∧
    (∀ p ∈ ctx.channelMentions.enumFrom 0,
      dictGet (jsk_python_get_convertables f ctx).1 (channelMentionIdent p.1) =
        some (Val.channel p.2)) ∧
    (∀ p ∈ ctx.roleMentions.enumFrom 0,
      dictGet (jsk_python_get_convertables f ctx).1 (roleMentionIdent p.1) =
        some (Val.role p.2)) ∧
    (∀ ctx' : Ctx, ctx'.interaction.isSome = true →
      (jsk_python_get_convertables f ctx').2 = []) := by
  have hmain : jsk_python_get_convertables f ctx =
      mentionLoop roleMentionIdent Val.role 0 ctx.roleMentions
        (mentionLoop channelMentionIdent Val.channel 0 ctx.channelMentions
          (mentionLoop userMentionIdent Val.user 0 ctx.mentions
            (dictInsert ctx.varDict "_".data f.lastResult,
              ([] : List (List Char × List Char))))) := by
    rw [jsk_python_get_convertables, if_pos hmsg]
  rw [hmain]
  rw [List.map_append, List.map_append, List.nodup_append,
    List.nodup_append] at hnodup
  obtain ⟨⟨hA, hB, hAB⟩, hC, hABC⟩ := hnodup
  set inner1 := mentionLoop userMentionIdent Val.user 0 ctx.mentions
    (dictInsert ctx.varDict "_".data f.lastResult,
      ([] : List (List Char × List Char))) with hinner1
  set inner2 := mentionLoop channelMentionIdent Val.channel 0
    ctx.channelMentions inner1 with hinner2
  have hcvU : inner1.2 = (ctx.mentions.enumFrom 0).map
      (fun p => (p.2.mention, userMentionIdent p.1)) := by
    rw [hinner1]
    rw [mentionLoop_snd_append userMentionIdent Val.user ctx.mentions 0
      (dictInsert ctx.varDict "_".data f.lastResult) [] (fun e _ => rfl) hA]
    rw [List.nil_append]
  have hfreshC : ∀ e ∈ ctx.channelMentions,
      dictGet inner1.2 e.mention = none := by
    intro e he
    rw [hcvU]
    apply dictGet_eq_none
    intro p hp
    obtain ⟨q, hq, rfl⟩ := List.mem_map.mp hp
    intro heq
    have hmemA : e.mention ∈ ctx.mentions.map Entity.mention :=
      List.mem_map.mpr ⟨q.2, enumFrom_snd_mem _ _ _ hq, heq⟩
    have hmemB : e.mention ∈ ctx.channelMentions.map Entity.mention :=
      List.mem_map.mpr ⟨e, he, rfl⟩
    exact hAB hmemA hmemB
  have hcvC : inner2.2 = inner1.2 ++ (ctx.channelMentions.enumFrom 0).map
      (fun p => (p.2.mention, channelMentionIdent p.1)) :=
    mentionLoop_snd_append channelMentionIdent Val.channel
      ctx.channelMentions 0 inner1.1 inner1.2 hfreshC hB
  have hfreshR : ∀ e ∈ ctx.roleMentions,
      dictGet inner2.2 e.mention = none := by
    intro e he
    rw [hcvC, hcvU]
    apply dictGet_eq_none
    intro p hp
    rcases List.mem_append.mp hp with hp1 | hp1
    · obtain ⟨q, hq, rfl⟩ := List.mem_map.mp hp1
      intro heq
      have hmemA : e.mention ∈ ctx.mentions.map Entity.mention :=
        List.mem_map.mpr ⟨q.2, enumFrom_snd_mem _ _ _ hq, heq⟩
      have hmemC : e.mention ∈ ctx.roleMentions.map Entity.mention :=
        List.mem_map.mpr ⟨e, he, rfl⟩
      exact hABC (List.mem_append.mpr (Or.inl hmemA)) hmemC
    · obtain ⟨q, hq, rfl⟩ := List.mem_map.mp hp1
      intro heq
      have hmemB : e.mention ∈ ctx.channelMentions.map Entity.mention :=
        List.mem_map.mpr ⟨q.2, enumFrom_snd_mem _ _ _ hq, heq⟩
      have hmemC : e.mention ∈ ctx.roleMentions.map Entity.mention :=
        List.mem_map.mpr ⟨e, he, rfl⟩
      exact hABC (List.mem_append.mpr (Or.inr hmemB)) hmemC
  have hcvR : (mentionLoop roleMentionIdent Val.role 0 ctx.roleMentions
        inner2).2 =
      inner2.2 ++ (ctx.roleMentions.enumFrom 0).map
        (fun p => (p.2.mention, roleMentionIdent p.1)) :=
    mentionLoop_snd_append roleMentionIdent Val.role ctx.roleMentions 0
      inner2.1 inner2.2 hfreshR hC
  have hcvAll : (mentionLoop roleMentionIdent Val.role 0 ctx.roleMentions
        inner2).2 =
      (ctx.mentions.enumFrom 0).map
        (fun p => (p.2.mention, userMentionIdent p.1)) ++
      (ctx.channelMentions.enumFrom 0).map
        (fun p => (p.2.mention, channelMentionIdent p.1)) ++
      (ctx.roleMentions.enumFrom 0).map
        (fun p => (p.2.mention, roleMentionIdent p.1)) := by
    rw [hcvR, hcvC, hcvU]
  refine ⟨hcvAll, ?_, ?_, ?_, ?_, ?_, ?_⟩
  · rw [hcvAll]
    simp only [List.length_append, List.length_map, List.enumFrom_length]
  · rw [hcvAll]
    rw [List.map_append, List.map_append, List.map_map, List.map_map,
      List.map_map]
    have hu : ((ctx.mentions.enumFrom 0).map
        (Prod.snd ∘ fun p => (p.2.mention, userMentionIdent p.1))) =
        (List.range' 0 ctx.mentions.length).map userMentionIdent := by
      rw [show (Prod.snd ∘ fun p : Nat × Entity =>
          (p.2.mention, userMentionIdent p.1)) =
          userMentionIdent ∘ Prod.fst from rfl]
      rw [← List.map_map, List.enumFrom_map_fst]
    have hc : ((ctx.channelMentions.enumFrom 0).map
        (Prod.snd ∘ fun p => (p.2.mention, channelMentionIdent p.1))) =
        (List.range' 0 ctx.channelMentions.length).map channelMentionIdent := by
      rw [show (Prod.snd ∘ fun p : Nat × Entity =>
          (p.2.mention, channelMentionIdent p.1)) =
          channelMentionIdent ∘ Prod.fst from rfl]
      rw [← List.map_map, List.enumFrom_map_fst]
    have hr : ((ctx.roleMentions.enumFrom 0).map
        (Prod.snd ∘ fun p => (p.2.mention, roleMentionIdent p.1))) =
        (List.range' 0 ctx.roleMentions.length).map roleMentionIdent := by
      rw [show (Prod.snd ∘ fun p : Nat × Entity =>
          (p.2.mention, roleMentionIdent p.1)) =
          roleMentionIdent ∘ Prod.fst from rfl]
      rw [← List.map_map, List.enumFrom_map_fst]
    rw [hu, hc, hr]
    rw [List.nodup_append, List.nodup_append]
    refine ⟨⟨?_, ?_, ?_⟩, ?_, ?_⟩
    · exact (List.nodup_range' _ _ _ (by omega)).map userMentionIdent_injective
    · exact (List.nodup_range' _ _ _
        (by omega)).map channelMentionIdent_injective
    · intro a ha hb
      obtain ⟨i, _, rfl⟩ := List.mem_map.mp ha
      obtain ⟨j, _, hj⟩ := List.mem_map.mp hb
      exact userMentionIdent_ne_channelMentionIdent i j hj.symm
    · exact (List.nodup_range' _ _ _ (by omega)).map roleMentionIdent_injective
    · intro a ha hb
      obtain ⟨j, _, hj⟩ := List.mem_map.mp hb
      rcases List.mem_append.mp ha with ha1 | ha1
      · obtain ⟨i, _, rfl⟩ := List.mem_map.mp ha1
        exact userMentionIdent_ne_roleMentionIdent i j hj.symm
      · obtain ⟨i, _, rfl⟩ := List.mem_map.mp ha1
        exact channelMentionIdent_ne_roleMentionIdent i j hj.symm
  · intro p hp
    have step3 : dictGet (mentionLoop roleMentionIdent Val.role 0
          ctx.roleMentions inner2).1 (userMentionIdent p.1) =
        dictGet inner2.1 (userMentionIdent p.1) :=
      mentionLoop_fst_get_ne roleMentionIdent Val.role ctx.roleMentions 0
        inner2.1 inner2.2 _
        (fun q _ => userMentionIdent_ne_roleMentionIdent p.1 q.1)
    have step2 : dictGet inner2.1 (userMentionIdent p.1) =
        dictGet inner1.1 (userMentionIdent p.1) :=
      mentionLoop_fst_get_ne channelMentionIdent Val.channel
        ctx.channelMentions 0 inner1.1 inner1.2 _
        (fun q _ => userMentionIdent_ne_channelMentionIdent p.1 q.1)
    have step1 : dictGet inner1.1 (userMentionIdent p.1) =
        some (Val.user p.2) :=
      mentionLoop_fst_get_mem userMentionIdent Val.user
        userMentionIdent_injective ctx.mentions 0 _ _ p hp
    rw [step3, step2, step1]
  · intro p hp
    have step3 : dictGet (mentionLoop roleMentionIdent Val.role 0
          ctx.roleMentions inner2).1 (channelMentionIdent p.1) =
        dictGet inner2.1 (channelMentionIdent p.1) :=
      mentionLoop_fst_get_ne roleMentionIdent Val.role ctx.roleMentions 0
        inner2.1 inner2.2 _
        (fun q _ => channelMentionIdent_ne_roleMentionIdent p.1 q.1)
    have step2 : dictGet inner2.1 (channelMentionIdent p.1) =
        some (Val.channel p.2) :=
      mentionLoop_fst_get_mem channelMentionIdent Val.channel
        channelMentionIdent_injective ctx.channelMentions 0 inner1.1
        inner1.2 p hp
    rw [step3, step2]
  · intro p hp
    exact mentionLoop_fst_get_mem roleMentionIdent Val.role
      roleMentionIdent_injective ctx.roleMentions 0 inner2.1 inner2.2 p hp
  · intro ctx' hc
    rw [jsk_python_get_convertables]
    rw [if_neg (fun h => by simp [h] at hc)]

/-- Witness for C7: two users, one channel and one role with distinct
mention texts yield four entries with the expected identifiers, and an
interaction-based context yields none. -/
theorem claim7_witness :
    ((jsk_python_get_convertables ⟨Scope.new, true, Val.noneVal⟩
      { token := none, useFileCheck := fun _ => false, author := 0, bot := 0,
        interaction := none,
        mentions := [⟨10, "<@10>".data⟩, ⟨11, "<@11>".data⟩],
        channelMentions := [⟨20, "<#20>".data⟩],
        roleMentions := [⟨30, "<@&30>".data⟩],
        varDict := [] }).2 =
      [("<@10>".data, "__user_mention_0".data),
       ("<@11>".data, "__user_mention_1".data),
       ("<#20>".data, "__channel_mention_0".data),
       ("<@&30>".data, "__role_mention_0".data)]) ∧
    (jsk_python_get_convertables ⟨Scope.new, true, Val.noneVal⟩
      { token := none, useFileCheck := fun _ => false, author := 0, bot := 0,
        interaction := some 1,
        mentions := [⟨10, "<@10>".data⟩],
        channelMentions := [], roleMentions := [], varDict := [] }).2 = [] :=
  ⟨((claim7_argument_binder ⟨Scope.new, true, Val.noneVal⟩
      { token := none, useFileCheck := fun _ => false, author := 0, bot := 0,
        interaction := none,
        mentions := [⟨10, "<@10>".data⟩, ⟨11, "<@11>".data⟩],
        channelMentions := [⟨20, "<#20>".data⟩],
        roleMentions := [⟨30, "<@&30>".data⟩],
        varDict := [] } rfl (by decide)).1).trans (by decide),
    (claim7_argument_binder ⟨Scope.new, true, Val.noneVal⟩
      { token := none, useFileCheck := fun _ => false, author := 0, bot := 0,
        interaction := none, mentions := [], channelMentions := [],
        roleMentions := [], varDict := [] } rfl (by decide)).2.2.2.2.2.2
      { token := none, useFileCheck := fun _ => false, author := 0, bot := 0,
        interaction := some 1,
        mentions := [⟨10, "<@10>".data⟩],
        channelMentions := [], roleMentions := [], varDict := [] } rfl⟩

end Jishaku
